import Mathlib

/-!
Verification development for the DivMachines model definitions
(`divmachines/models/__init__.py` and `divmachines/classifiers/__init__.py`).

The torch tensors are embedded as dynamically shaped tensors over exact
rationals: a tensor is a list of dimension sizes together with an entry
function on multi-indices.  Tensor operations that can raise in torch
(matrix product on wrong ranks, reductions on missing axes, non-broadcastable
element-wise operations) return `Option`.  Module state is passed
explicitly: a `forward` returns the updated module together with the
optional output, mirroring the fact that the only assignment performed by
any forward pass in the source is `self.batch_size = x.size()[0]` in
`SecondOrderInteraction.forward`.
-/

namespace DivMachines

/-- A dense tensor over exact rationals: a shape (list of dimension sizes)
together with an entry function on multi-indices.  Entries are meaningful on
in-bounds indices (componentwise below the shape). -/
structure Tensor where
  shape : List ℕ
  data : List ℕ → ℚ

/-- An integer index tensor, the input of an embedding lookup. -/
structure IdxTensor where
  shape : List ℕ
  data : List ℕ → ℕ

/-- All in-bounds indices of a shape, lexicographically. -/
def allIdx : List ℕ → List (List ℕ)
  | [] => [[]]
  | d :: ds => (List.range d).flatMap (fun i => (allIdx ds).map (fun is => i :: is))

/-- Extensional tensor equality: same shape and same entries at every
in-bounds index. -/
def teq (a b : Tensor) : Prop :=
  a.shape = b.shape ∧ ∀ idx ∈ allIdx a.shape, a.data idx = b.data idx

instance (a b : Tensor) : Decidable (teq a b) := by
  unfold teq; infer_instance

/-- Equality of optional tensor results: both fail, or both succeed with
extensionally equal tensors. -/
def oeq : Option Tensor → Option Tensor → Prop
  | some a, some b => teq a b
  | none, none => True
  | _, _ => False

instance : (a b : Option Tensor) → Decidable (oeq a b)
  | some a, some b => inferInstanceAs (Decidable (teq a b))
  | none, none => inferInstanceAs (Decidable True)
  | some _, none => inferInstanceAs (Decidable False)
  | none, some _ => inferInstanceAs (Decidable False)

/-- `torch.squeeze` on shapes: drop every dimension of size 1. -/
def squeezeShape : List ℕ → List ℕ
  | [] => []
  | d :: ds => if d = 1 then squeezeShape ds else d :: squeezeShape ds

/-- Map an index of the squeezed tensor back to an index of the original
tensor: re-insert a 0 coordinate at every dropped size-1 dimension. -/
def unsqueezeIdx : List ℕ → List ℕ → List ℕ
  | [], _ => []
  | d :: ds, idx =>
    if d = 1 then 0 :: unsqueezeIdx ds idx
    else idx.headD 0 :: unsqueezeIdx ds (idx.drop 1)

/-- `Tensor.squeeze`: remove all dimensions of size 1 (torch `.squeeze()`). -/
def Tensor.squeeze (t : Tensor) : Tensor :=
  ⟨squeezeShape t.shape, fun idx => t.data (unsqueezeIdx t.shape idx)⟩

/-- Broadcast two dimension sizes (torch broadcasting rule for one axis). -/
def bcast2 (a b : ℕ) : Option ℕ :=
  if a = b then some a else if a = 1 then some b else if b = 1 then some a else none

/-- Broadcast two reversed shapes (aligned from the trailing axis). -/
def bcastShapeR : List ℕ → List ℕ → Option (List ℕ)
  | [], t => some t
  | s, [] => some s
  | a :: as, b :: bs => do
    let ds ← bcastShapeR as bs
    let d ← bcast2 a b
    pure (d :: ds)

/-- Broadcast two shapes, torch-style (right-aligned). -/
def bcastShape (s t : List ℕ) : Option (List ℕ) :=
  (bcastShapeR s.reverse t.reverse).map List.reverse

/-- Map an index of the broadcast result to an index of an operand of shape
`s`: keep the trailing coordinates, sending coordinates of broadcast size-1
axes to 0. -/
def bcastIdx (s : List ℕ) (idx : List ℕ) : List ℕ :=
  (s.zip (idx.drop (idx.length - s.length))).map (fun p => if p.1 = 1 then 0 else p.2)

/-- Element-wise broadcast addition (torch `+`). -/
def Tensor.add (a b : Tensor) : Option Tensor :=
  (bcastShape a.shape b.shape).map
    (fun s => ⟨s, fun idx => a.data (bcastIdx a.shape idx) + b.data (bcastIdx b.shape idx)⟩)

/-- Element-wise broadcast subtraction (torch `-`). -/
def Tensor.sub (a b : Tensor) : Option Tensor :=
  (bcastShape a.shape b.shape).map
    (fun s => ⟨s, fun idx => a.data (bcastIdx a.shape idx) - b.data (bcastIdx b.shape idx)⟩)

/-- Element-wise broadcast multiplication (torch `*`). -/
def Tensor.mul (a b : Tensor) : Option Tensor :=
  (bcastShape a.shape b.shape).map
    (fun s => ⟨s, fun idx => a.data (bcastIdx a.shape idx) * b.data (bcastIdx b.shape idx)⟩)

/-- Element-wise power (torch `torch.pow(t, e)`). -/
def Tensor.pow (t : Tensor) (e : ℕ) : Tensor :=
  ⟨t.shape, fun idx => (t.data idx) ^ e⟩

/-- Scalar multiplication (torch `c * t`). -/
def Tensor.smul (c : ℚ) (t : Tensor) : Tensor :=
  ⟨t.shape, fun idx => c * t.data idx⟩

/-- `torch.mm`: strict rank-2 matrix product with matching inner dimension. -/
def Tensor.mm (a b : Tensor) : Option Tensor :=
  match a.shape, b.shape with
  | [m, n], [n2, p] =>
    if n = n2 then
      some ⟨[m, p], fun idx =>
        ∑ j in Finset.range n, a.data [idx.getD 0 0, j] * b.data [j, idx.getD 1 0]⟩
    else none
  | _, _ => none

/-- `t.sum(d)`: reduce away axis `d` (fails when the axis does not exist). -/
def Tensor.sumAxis (t : Tensor) (d : ℕ) : Option Tensor :=
  if d < t.shape.length then
    some ⟨t.shape.eraseIdx d, fun idx =>
      ∑ j in Finset.range (t.shape.getD d 0), t.data (idx.take d ++ j :: idx.drop d)⟩
  else none

/-- `t.sum()`: reduce the whole tensor to a rank-0 scalar tensor. -/
def Tensor.sumAll (t : Tensor) : Tensor :=
  ⟨[], fun _ => ((allIdx t.shape).map t.data).sum⟩

/-- `t.unsqueeze(-1)`: append a trailing dimension of size 1. -/
def Tensor.unsqueezeLast (t : Tensor) : Tensor :=
  ⟨t.shape ++ [1], fun idx => t.data (idx.take t.shape.length)⟩

/-- Applying an embedding layer with weight `w : (cardinality, dim)` to an
integer index tensor: gather rows, so the output shape is the index shape
with the embedding dimension appended. -/
def embLookup (w : Tensor) (ids : IdxTensor) : Tensor :=
  ⟨ids.shape ++ [w.shape.getD 1 0],
   fun idx => w.data [ids.data (idx.take ids.shape.length), idx.getD ids.shape.length 0]⟩

/-- `SecondOrderInteraction` module: the factorized second-order interaction
parameters (`self.v` of shape `(n_features, n_factors)`) together with the
informational `self.batch_size` field written by `forward`. -/
structure SecondOrderInteraction where
  n_features : ℕ
  n_factors : ℕ
  v : Tensor
  batch_size : Option ℕ

/-- `SecondOrderInteraction.forward` (models lines 190-198):
`self.batch_size = x.size()[0]`, `pow_x = torch.pow(x, 2)`,
`pow_v = torch.pow(self.v, 2)`, `pow_sum = torch.pow(torch.mm(x, self.v), 2)`,
`sum_pow = torch.mm(pow_x, pow_v)`,
`out = 0.5 * (pow_sum - sum_pow).sum(1)`, `return out.unsqueeze(-1)`.
Returns the updated module together with the optional output; the
`x.size()[0]` access itself fails on a rank-0 input, before the
`batch_size` assignment happens. -/
def SecondOrderInteraction.forward (m : SecondOrderInteraction) (x : Tensor) :
    SecondOrderInteraction × Option Tensor :=
  match x.shape.head? with
  | none => (m, none)
  | some b =>
    let m2 := { m with batch_size := some b }
    let pow_x := x.pow 2
    let pow_v := m.v.pow 2
    let out? : Option Tensor := do
      let xv ← x.mm m.v
      let pow_sum := xv.pow 2
      let sum_pow ← pow_x.mm pow_v
      let diff ← pow_sum.sub sum_pow
      let s ← diff.sumAxis 1
      pure (Tensor.smul (1/2) s).unsqueezeLast
    (m2, out?)

/-- `FactorizationMachine`: linear weight vector `self.linear` of shape
`(n_features,)` and an owned `SecondOrderInteraction` module. -/
structure FactorizationMachine where
  n_features : ℕ
  factors : ℕ
  linear : Tensor
  second_order : SecondOrderInteraction

/-- `FactorizationMachine.forward` (models lines 161-166):
`linear = (x * self.linear).sum(1).unsqueeze(-1)`,
`interaction = self.second_order(x)`, `res = linear + interaction`.
The second-order module is only invoked (and hence its `batch_size` field
only written) after the linear term has been computed successfully. -/
def FactorizationMachine.forward (m : FactorizationMachine) (x : Tensor) :
    FactorizationMachine × Option Tensor :=
  match x.mul m.linear with
  | none => (m, none)
  | some xl =>
    match xl.sumAxis 1 with
    | none => (m, none)
    | some s =>
      let lin := (Tensor.unsqueezeLast s)
      let r := m.second_order.forward x
      let m2 := { m with second_order := r.1 }
      match r.2 with
      | none => (m2, none)
      | some interaction => (m2, lin.add interaction)

/-- The dot-product block shared verbatim by the two embedding models
(models lines 65-73 and 127-135): gather and squeeze the user and item
factor rows, multiply element-wise, and reduce along an axis chosen from
the rank of the squeezed gathered user batch. -/
def mfDot (wx wy : Tensor) (user_ids item_ids : IdxTensor) : Option Tensor :=
  let users_batch := (embLookup wx user_ids).squeeze
  let items_batch := (embLookup wy item_ids).squeeze
  do
    let p ← users_batch.mul items_batch
    if users_batch.shape.length > 2 then p.sumAxis 2
    else if users_batch.shape.length > 1 then p.sumAxis 1
    else pure p.sumAll

/-- `MatrixFactorizationModel`: user/item factor matrices `x`/`y` of shape
`(n_users, n_factors)` / `(n_items, n_factors)` and user/item bias
embeddings of shape `(n_users, 1)` / `(n_items, 1)`. -/
structure MatrixFactorizationModel where
  n_users : ℕ
  n_items : ℕ
  n_factors : ℕ
  x : Tensor
  y : Tensor
  user_biases : Tensor
  item_biases : Tensor

/-- `MatrixFactorizationModel.forward` (models lines 45-75):
`user_bias = self.user_biases(user_ids).squeeze()`,
`item_bias = self.item_biases(item_ids).squeeze()`,
`biases_sum = user_bias + item_bias`, then the shared dot-product block,
and `return biases_sum + dot`.  No module state is written, so the model
is returned unchanged. -/
def MatrixFactorizationModel.forward (m : MatrixFactorizationModel)
    (user_ids item_ids : IdxTensor) : MatrixFactorizationModel × Option Tensor :=
  let user_bias := (embLookup m.user_biases user_ids).squeeze
  let item_bias := (embLookup m.item_biases item_ids).squeeze
  let out? : Option Tensor := do
    let biases_sum ← user_bias.add item_bias
    let dot ← mfDot m.x m.y user_ids item_ids
    biases_sum.add dot
  (m, out?)

/-- `SimpleMatrixFactorizationModel`: user/item factor matrices only. -/
structure SimpleMatrixFactorizationModel where
  n_users : ℕ
  n_items : ℕ
  n_factors : ℕ
  x : Tensor
  y : Tensor

/-- `SimpleMatrixFactorizationModel.forward` (models lines 112-137): the
shared dot-product block alone; no bias terms, no module state written. -/
def SimpleMatrixFactorizationModel.forward (m : SimpleMatrixFactorizationModel)
    (user_ids item_ids : IdxTensor) : SimpleMatrixFactorizationModel × Option Tensor :=
  (m, mfDot m.x m.y user_ids item_ids)

/-! ### Basic lemmas about the tensor operations -/

theorem bcast2_self (a : ℕ) : bcast2 a a = some a := by
  simp [bcast2]

theorem bcastShapeR_self : ∀ s : List ℕ, bcastShapeR s s = some s
  | [] => rfl
  | a :: as => by simp [bcastShapeR, bcastShapeR_self as, bcast2_self]

theorem bcastShape_self (s : List ℕ) : bcastShape s s = some s := by
  simp [bcastShape, bcastShapeR_self]

/-- A coordinate below its dimension is unchanged by the broadcast index
remapping of that dimension. -/
theorem ite_idx_of_lt {b B : ℕ} (h : b < B) : (if B = 1 then 0 else b) = b := by
  rcases eq_or_ne B 1 with h1 | h1
  · subst h1
    have hb0 : b = 0 := by omega
    subst hb0
    simp
  · simp [h1]

/-- Characterization of `SecondOrderInteraction.forward` on a well-shaped
input: the run succeeds, the output has shape `(batch_size, 1)`, and entry
`b` is the closed-form `0.5 * Σ_f [(Σ_i x[b,i]·V[i,f])² − Σ_i x[b,i]²·V[i,f]²]`. -/
theorem so_forward_run (m : SecondOrderInteraction) (B n k : ℕ) (x : Tensor)
    (hx : x.shape = [B, n]) (hv : m.v.shape = [n, k]) :
    ((m.forward x).2).map Tensor.shape = some [B, 1]
      ∧ ∀ b, b < B → ((m.forward x).2).map (fun t => t.data [b, 0])
        = some ((1/2 : ℚ) * ∑ f in Finset.range k,
            ((∑ i in Finset.range n, x.data [b, i] * m.v.data [i, f]) ^ 2
              - ∑ i in Finset.range n, (x.data [b, i]) ^ 2 * (m.v.data [i, f]) ^ 2)) := by
  constructor
  · simp [SecondOrderInteraction.forward, Tensor.mm, Tensor.pow, Tensor.sub, Tensor.sumAxis,
      Tensor.smul, Tensor.unsqueezeLast, bcastShape_self, hx, hv]
  · intro b hb
    simp [SecondOrderInteraction.forward, Tensor.mm, Tensor.pow, Tensor.sub, Tensor.sumAxis,
      Tensor.smul, Tensor.unsqueezeLast, bcastShape_self, bcastIdx, hx, hv, ite_idx_of_lt hb]
    congr 1
    · exact Finset.sum_congr rfl fun f hf => by
        simp [ite_idx_of_lt (Finset.mem_range.mp hf)]
    · exact Finset.sum_congr rfl fun f hf => by
        simp [ite_idx_of_lt (Finset.mem_range.mp hf)]

/-! ### The square-of-sum identity behind the factorization-machine trick -/

theorem sq_sum_sub_sum_sq (n : ℕ) (a : ℕ → ℚ) :
    (∑ i in Finset.range n, a i) ^ 2 - ∑ i in Finset.range n, (a i) ^ 2
      = 2 * ∑ i in Finset.range n, ∑ j in Finset.range n, (if i < j then a i * a j else 0) := by
  induction n with
  | zero => simp
  | succ n ih =>
    have hlast : (∑ j in Finset.range (n + 1), if n < j then a n * a j else 0) = 0 :=
      Finset.sum_eq_zero fun j hj => if_neg (by have := Finset.mem_range.mp hj; omega)
    have hrow : ∀ i ∈ Finset.range n,
        (∑ j in Finset.range (n + 1), if i < j then a i * a j else 0)
          = (∑ j in Finset.range n, if i < j then a i * a j else 0) + a i * a n := by
      intro i hi
      rw [Finset.sum_range_succ, if_pos (Finset.mem_range.mp hi)]
    rw [Finset.sum_range_succ, Finset.sum_range_succ (fun i => (a i) ^ 2),
      Finset.sum_range_succ
        (fun i => ∑ j in Finset.range (n + 1), if i < j then a i * a j else 0),
      Finset.sum_congr rfl hrow, hlast, Finset.sum_add_distrib, ← Finset.sum_mul]
    linear_combination ih

theorem closed_form_eq_pairwise (n k : ℕ) (xv : ℕ → ℚ) (vv : ℕ → ℕ → ℚ) :
    (1/2 : ℚ) * ∑ f in Finset.range k,
        ((∑ i in Finset.range n, xv i * vv i f) ^ 2
          - ∑ i in Finset.range n, (xv i) ^ 2 * (vv i f) ^ 2)
      = ∑ i in Finset.range n, ∑ j in Finset.range n,
          (if i < j then xv i * xv j * ∑ f in Finset.range k, vv i f * vv j f else 0) := by
  have key : ∀ f, ((∑ i in Finset.range n, xv i * vv i f) ^ 2
      - ∑ i in Finset.range n, (xv i) ^ 2 * (vv i f) ^ 2)
      = 2 * ∑ i in Finset.range n, ∑ j in Finset.range n,
          (if i < j then (xv i * vv i f) * (xv j * vv j f) else 0) := by
    intro f
    rw [show (∑ i in Finset.range n, (xv i) ^ 2 * (vv i f) ^ 2)
        = ∑ i in Finset.range n, (xv i * vv i f) ^ 2 from
      Finset.sum_congr rfl fun i _ => by ring]
    exact sq_sum_sub_sum_sq n (fun i => xv i * vv i f)
  rw [Finset.sum_congr rfl (fun f _ => key f), ← Finset.mul_sum, ← mul_assoc]
  norm_num
  rw [Finset.sum_comm]
  refine Finset.sum_congr rfl fun i _ => ?_
  rw [Finset.sum_comm]
  refine Finset.sum_congr rfl fun j _ => ?_
  by_cases h : i < j
  · simp only [if_pos h, Finset.mul_sum]
    exact Finset.sum_congr rfl fun f _ => by ring
  · simp [h]

/-- Modelled on the spec's reference formulation: the double-loop
pairwise-interaction sum `Σ_{i<j} x[b,i]·x[b,j]·⟨V_i, V_j⟩` for sample `b`. -/
def pairwiseInteraction (v x : Tensor) (n k b : ℕ) : ℚ :=
  ∑ i in Finset.range n, ∑ j in Finset.range n,
    (if i < j then
      x.data [b, i] * x.data [b, j] * ∑ f in Finset.range k, v.data [i, f] * v.data [j, f]
    else 0)

/-- Characterization of `FactorizationMachine.forward` on a well-shaped
input: shape `(batch_size, 1)` and entry `b` equal to the linear term plus
the closed-form second-order interaction. -/
theorem fm_forward_run (m : FactorizationMachine) (B n k : ℕ) (x : Tensor)
    (hx : x.shape = [B, n]) (hlin : m.linear.shape = [n])
    (hv : m.second_order.v.shape = [n, k]) :
    ((m.forward x).2).map Tensor.shape = some [B, 1]
      ∧ ∀ b, b < B → ((m.forward x).2).map (fun t => t.data [b, 0])
        = some ((∑ i in Finset.range n, x.data [b, i] * m.linear.data [i])
            + (1/2 : ℚ) * ∑ f in Finset.range k,
              ((∑ i in Finset.range n, x.data [b, i] * m.second_order.v.data [i, f]) ^ 2
                - ∑ i in Finset.range n,
                    (x.data [b, i]) ^ 2 * (m.second_order.v.data [i, f]) ^ 2)) := by
  have hbc : bcastShape x.shape m.linear.shape = some [B, n] := by
    rw [hx, hlin]
    simp [bcastShape, bcastShapeR, bcast2_self]
  have hmul : x.mul m.linear = some ⟨[B, n], fun idx =>
      x.data (bcastIdx x.shape idx) * m.linear.data (bcastIdx m.linear.shape idx)⟩ := by
    simp only [Tensor.mul, hbc, Option.map_some']
  have hso := so_forward_run m.second_order B n k x hx hv
  rcases hout : (m.second_order.forward x).2 with _ | ti
  · rw [hout] at hso
    exact absurd hso.1 (by simp)
  · rw [hout] at hso
    have hts : ti.shape = [B, 1] := by
      have := hso.1
      simpa using this
    constructor
    · simp [FactorizationMachine.forward, hmul, Tensor.sumAxis, Tensor.unsqueezeLast,
        Tensor.add, hout, bcastShape_self, hts]
    · intro b hb
      have hentry : ti.data [b, 0]
          = (1/2 : ℚ) * ∑ f in Finset.range k,
              ((∑ i in Finset.range n, x.data [b, i] * m.second_order.v.data [i, f]) ^ 2
                - ∑ i in Finset.range n,
                    (x.data [b, i]) ^ 2 * (m.second_order.v.data [i, f]) ^ 2) := by
        have := hso.2 b hb
        simpa using this
      simp [FactorizationMachine.forward, hmul, Tensor.sumAxis, Tensor.unsqueezeLast,
        Tensor.add, hout, bcastShape_self, hts, bcastIdx, hx, hlin,
        ite_idx_of_lt hb, hentry]
      exact Finset.sum_congr rfl fun i hi => by
        simp [ite_idx_of_lt (Finset.mem_range.mp hi)]

/-! ### Batch slicing helpers used for the per-sample independence claim -/

/-- The single-row batch consisting of row `b` of `x` (a `(1, n)` tensor). -/
def rowBatch (x : Tensor) (n b : ℕ) : Tensor :=
  ⟨[1, n], fun idx => x.data (b :: idx.drop 1)⟩

/-- The batch with rows renamed by `p`: row `b` holds row `p b` of `x`. -/
def permRows (x : Tensor) (p : ℕ → ℕ) : Tensor :=
  ⟨x.shape, fun idx => x.data (p (idx.headD 0) :: idx.drop 1)⟩

/-! ### Concrete instances used by the witnesses -/

/-- Witness interaction matrix `V` of shape `(2, 1)`, all entries 1. -/
def vW : Tensor := ⟨[2, 1], fun _ => 1⟩

/-- Witness input batch of shape `(1, 2)` with row `[1, 2]`. -/
def xW : Tensor := ⟨[1, 2], fun idx => (idx.getD 1 0 : ℚ) + 1⟩

/-- Witness all-zero input batch of shape `(1, 2)`. -/
def xZ : Tensor := ⟨[1, 2], fun _ => 0⟩

/-- Witness second-order module with `n_features = 2`, `n_factors = 1`. -/
def soW : SecondOrderInteraction := ⟨2, 1, vW, none⟩

/-- Witness interaction matrix of shape `(1, 2)` (single feature). -/
def vW1 : Tensor := ⟨[1, 2], fun idx => (idx.getD 1 0 : ℚ) + 3⟩

/-- Witness second-order module with a single feature. -/
def soW1 : SecondOrderInteraction := ⟨1, 2, vW1, none⟩

/-- Witness input of shape `(2, 1)` for the single-feature module. -/
def xW1 : Tensor := ⟨[2, 1], fun idx => (idx.headD 0 : ℚ) + 7⟩

/-- Witness factorization machine over `soW` with linear weights `[10, 20]`. -/
def fmW : FactorizationMachine := ⟨2, 1, ⟨[2], fun idx => (idx.headD 0 : ℚ) * 10 + 10⟩, soW⟩

/-! ### Claims C1, C2, C5, C6, C7, C10 -/

/-- C1: on any `V : (n_features, n_factors)` and batch `x : (batch_size,
n_features)`, entry `b` of the second-order interaction forward output is
exactly `0.5 * Σ_f [(Σ_i x[b,i]·V[i,f])² − Σ_i x[b,i]²·V[i,f]²]`, which in
turn equals the reference double-loop pairwise sum
`Σ_{i<j} x[b,i]·x[b,j]·⟨V_i,V_j⟩` (exactly, over exact arithmetic). -/
theorem secondOrder_forward_pairwise_equiv (m : SecondOrderInteraction) (B n k : ℕ)
    (x : Tensor) (hx : x.shape = [B, n]) (hv : m.v.shape = [n, k]) (b : ℕ) (hb : b < B) :
    ((m.forward x).2).map (fun t => t.data [b, 0])
        = some ((1/2 : ℚ) * ∑ f in Finset.range k,
            ((∑ i in Finset.range n, x.data [b, i] * m.v.data [i, f]) ^ 2
              - ∑ i in Finset.range n, (x.data [b, i]) ^ 2 * (m.v.data [i, f]) ^ 2))
      ∧ ((m.forward x).2).map (fun t => t.data [b, 0])
        = some (pairwiseInteraction m.v x n k b) := by
  have h := (so_forward_run m B n k x hx hv).2 b hb
  refine ⟨h, ?_⟩
  rw [h, pairwiseInteraction]
  exact congrArg some
    (closed_form_eq_pairwise n k (fun i => x.data [b, i]) (fun i f => m.v.data [i, f]))

theorem secondOrder_forward_pairwise_equiv_witness :
    ((soW.forward xW).2).map (fun t => t.data [0, 0])
        = some ((1/2 : ℚ) * ∑ f in Finset.range 1,
            ((∑ i in Finset.range 2, xW.data [0, i] * soW.v.data [i, f]) ^ 2
              - ∑ i in Finset.range 2, (xW.data [0, i]) ^ 2 * (soW.v.data [i, f]) ^ 2))
      ∧ ((soW.forward xW).2).map (fun t => t.data [0, 0])
        = some (pairwiseInteraction soW.v xW 2 1 0) :=
  secondOrder_forward_pairwise_equiv soW 1 2 1 xW rfl rfl 0 (by decide)

/-- C2: for `n_features ≥ 1`, `n_factors ≥ 1`, `batch_size ≥ 1` and
`x : (batch_size, n_features)`, the second-order forward output has shape
`(batch_size, 1)`. -/
theorem secondOrder_forward_shape (m : SecondOrderInteraction) (B n k : ℕ) (x : Tensor)
    (_hB : 1 ≤ B) (_hn : 1 ≤ n) (_hk : 1 ≤ k)
    (hx : x.shape = [B, n]) (hv : m.v.shape = [n, k]) :
    ((m.forward x).2).map Tensor.shape = some [B, 1] :=
  (so_forward_run m B n k x hx hv).1

theorem secondOrder_forward_shape_witness :
    ((soW.forward xW).2).map Tensor.shape = some [1, 1] :=
  secondOrder_forward_shape soW 1 2 1 xW (by decide) (by decide) (by decide) rfl rfl

/-- C5: the factorization machine forward output has shape
`(batch_size, 1)` and each entry is the linear term
`Σ_i x[b,i]·w[i]` plus the entry produced by the owned second-order module
on the same input `x`. -/
theorem factorizationMachine_forward_decomposition (m : FactorizationMachine)
    (B n k : ℕ) (x : Tensor) (hx : x.shape = [B, n]) (hlin : m.linear.shape = [n])
    (hv : m.second_order.v.shape = [n, k]) :
    ((m.forward x).2).map Tensor.shape = some [B, 1]
      ∧ ∀ b, b < B →
        ((m.forward x).2).map (fun t => t.data [b, 0])
          = some ((∑ i in Finset.range n, x.data [b, i] * m.linear.data [i])
              + (1/2 : ℚ) * ∑ f in Finset.range k,
                ((∑ i in Finset.range n, x.data [b, i] * m.second_order.v.data [i, f]) ^ 2
                  - ∑ i in Finset.range n,
                      (x.data [b, i]) ^ 2 * (m.second_order.v.data [i, f]) ^ 2))
        ∧ ((m.second_order.forward x).2).map (fun t => t.data [b, 0])
          = some ((1/2 : ℚ) * ∑ f in Finset.range k,
              ((∑ i in Finset.range n, x.data [b, i] * m.second_order.v.data [i, f]) ^ 2
                - ∑ i in Finset.range n,
                    (x.data [b, i]) ^ 2 * (m.second_order.v.data [i, f]) ^ 2)) := by
  refine ⟨(fm_forward_run m B n k x hx hlin hv).1, fun b hb => ?_⟩
  exact ⟨(fm_forward_run m B n k x hx hlin hv).2 b hb,
    (so_forward_run m.second_order B n k x hx hv).2 b hb⟩

theorem factorizationMachine_forward_decomposition_witness :
    ((fmW.forward xW).2).map Tensor.shape = some [1, 1]
      ∧ ((fmW.forward xW).2).map (fun t => t.data [0, 0])
          = some ((∑ i in Finset.range 2, xW.data [0, i] * fmW.linear.data [i])
              + (1/2 : ℚ) * ∑ f in Finset.range 1,
                ((∑ i in Finset.range 2, xW.data [0, i] * fmW.second_order.v.data [i, f]) ^ 2
                  - ∑ i in Finset.range 2,
                      (xW.data [0, i]) ^ 2 * (fmW.second_order.v.data [i, f]) ^ 2))
        ∧ ((fmW.second_order.forward xW).2).map (fun t => t.data [0, 0])
          = some ((1/2 : ℚ) * ∑ f in Finset.range 1,
              ((∑ i in Finset.range 2, xW.data [0, i] * fmW.second_order.v.data [i, f]) ^ 2
                - ∑ i in Finset.range 2,
                    (xW.data [0, i]) ^ 2 * (fmW.second_order.v.data [i, f]) ^ 2)) :=
  ⟨(factorizationMachine_forward_decomposition fmW 1 2 1 xW rfl rfl rfl).1,
   (factorizationMachine_forward_decomposition fmW 1 2 1 xW rfl rfl rfl).2 0 (by decide)⟩

/-- C6: on an all-zero input batch, every sample's second-order interaction
output entry is exactly 0. -/
theorem secondOrder_zero_input (m : SecondOrderInteraction) (B n k : ℕ) (x : Tensor)
    (hx : x.shape = [B, n]) (hv : m.v.shape = [n, k])
    (hzero : ∀ b i, b < B → i < n → x.data [b, i] = 0) (b : ℕ) (hb : b < B) :
    ((m.forward x).2).map (fun t => t.data [b, 0]) = some 0 := by
  rw [(so_forward_run m B n k x hx hv).2 b hb]
  congr 1
  have hterm : ∀ f ∈ Finset.range k,
      ((∑ i in Finset.range n, x.data [b, i] * m.v.data [i, f]) ^ 2
        - ∑ i in Finset.range n, (x.data [b, i]) ^ 2 * (m.v.data [i, f]) ^ 2) = 0 := by
    intro f _
    rw [Finset.sum_eq_zero (fun i hi => by
        rw [hzero b i hb (Finset.mem_range.mp hi)]; ring),
      Finset.sum_eq_zero (fun i hi => by
        rw [hzero b i hb (Finset.mem_range.mp hi)]; ring)]
    ring
  rw [Finset.sum_eq_zero hterm, mul_zero]

theorem secondOrder_zero_input_witness :
    ((soW.forward xZ).2).map (fun t => t.data [0, 0]) = some 0 :=
  secondOrder_zero_input soW 1 2 1 xZ rfl rfl (fun _ _ _ _ => rfl) 0 (by decide)

/-- C7: with a single feature (`n_features = 1`), every sample's
second-order interaction output entry is exactly 0, for any `V` and any
input values. -/
theorem secondOrder_single_feature (m : SecondOrderInteraction) (B k : ℕ) (x : Tensor)
    (hx : x.shape = [B, 1]) (hv : m.v.shape = [1, k]) (b : ℕ) (hb : b < B) :
    ((m.forward x).2).map (fun t => t.data [b, 0]) = some 0 := by
  rw [(so_forward_run m B 1 k x hx hv).2 b hb]
  congr 1
  rw [Finset.sum_eq_zero fun f _ => by
    simp only [Finset.sum_range_one]; ring, mul_zero]

theorem secondOrder_single_feature_witness :
    ((soW1.forward xW1).2).map (fun t => t.data [1, 0]) = some 0 :=
  secondOrder_single_feature soW1 2 2 xW1 rfl rfl 1 (by decide)

/-- C10: the second-order interaction (and the factorization machine built
on it) is computed row-by-row: entry `b` of the batched output equals the
output on the single-row batch holding row `b` alone, and renaming batch
rows renames output entries accordingly, so no sample's output depends on
any other sample in the batch. -/
theorem secondOrder_rowwise_independence (m : SecondOrderInteraction)
    (B n k : ℕ) (x : Tensor) (hx : x.shape = [B, n]) (hv : m.v.shape = [n, k]) :
    (∀ b, b < B →
      ((m.forward (rowBatch x n b)).2).map (fun t => t.data [0, 0])
        = ((m.forward x).2).map (fun t => t.data [b, 0]))
    ∧ (∀ p : ℕ → ℕ, ∀ b, b < B → p b < B →
      ((m.forward (permRows x p)).2).map (fun t => t.data [b, 0])
        = ((m.forward x).2).map (fun t => t.data [p b, 0]))
    ∧ (∀ fm : FactorizationMachine, fm.linear.shape = [n]
        → fm.second_order.v.shape = [n, k] → ∀ b, b < B →
        ((fm.forward (rowBatch x n b)).2).map (fun t => t.data [0, 0])
          = ((fm.forward x).2).map (fun t => t.data [b, 0])) := by
  refine ⟨fun b hb => ?_, fun p b hb hpb => ?_, fun fm hlin hv2 b hb => ?_⟩
  · rw [(so_forward_run m 1 n k (rowBatch x n b) rfl hv).2 0 (by omega),
      (so_forward_run m B n k x hx hv).2 b hb]
    simp [rowBatch]
  · rw [(so_forward_run m B n k (permRows x p) (by simp [permRows, hx]) hv).2 b hb,
      (so_forward_run m B n k x hx hv).2 (p b) hpb]
    simp [permRows]
  · rw [(fm_forward_run fm 1 n k (rowBatch x n b) rfl hlin hv2).2 0 (by omega),
      (fm_forward_run fm B n k x hx hlin hv2).2 b hb]
    simp [rowBatch]

theorem secondOrder_rowwise_independence_witness :
    ((soW.forward (rowBatch xW 2 0)).2).map (fun t => t.data [0, 0])
        = ((soW.forward xW).2).map (fun t => t.data [0, 0])
      ∧ ((soW.forward (permRows xW (fun _ => 0))).2).map (fun t => t.data [0, 0])
        = ((soW.forward xW).2).map (fun t => t.data [0, 0])
      ∧ ((fmW.forward (rowBatch xW 2 0)).2).map (fun t => t.data [0, 0])
        = ((fmW.forward xW).2).map (fun t => t.data [0, 0]) :=
  ⟨(secondOrder_rowwise_independence soW 1 2 1 xW rfl rfl).1 0 (by decide),
   (secondOrder_rowwise_independence soW 1 2 1 xW rfl rfl).2.1 (fun _ => 0) 0
     (by decide) (by decide),
   (secondOrder_rowwise_independence soW 1 2 1 xW rfl rfl).2.2 fmW rfl rfl 0 (by decide)⟩

/-- C9: no forward pass writes any parameter: the second-order module's
matrix `V`, the factorization machine's linear weights and owned `V`, and
the embedding models' factor and bias tables are unchanged by every call —
including calls that fail partway on malformed input (where the optional
output is `none`).  The only module state written anywhere is the
informational `batch_size` field of the second-order module. -/
theorem forward_preserves_parameters :
    (∀ (m : SecondOrderInteraction) (x : Tensor), ((m.forward x).1).v = m.v)
    ∧ (∀ (m : FactorizationMachine) (x : Tensor),
        ((m.forward x).1).linear = m.linear
          ∧ ((m.forward x).1).second_order.v = m.second_order.v)
    ∧ (∀ (m : MatrixFactorizationModel) (u i : IdxTensor), (m.forward u i).1 = m)
    ∧ (∀ (m : SimpleMatrixFactorizationModel) (u i : IdxTensor),
        (m.forward u i).1 = m) := by
  have hso : ∀ (m : SecondOrderInteraction) (x : Tensor), ((m.forward x).1).v = m.v := by
    intro m x
    unfold SecondOrderInteraction.forward
    cases x.shape.head? <;> rfl
  refine ⟨hso, fun m x => ?_, fun m u i => rfl, fun m u i => rfl⟩
  cases hmul : x.mul m.linear with
  | none => simp [FactorizationMachine.forward, hmul]
  | some xl =>
    cases hsum : xl.sumAxis 1 with
    | none => simp [FactorizationMachine.forward, hmul, hsum]
    | some s =>
      cases hr : (m.second_order.forward x).2 with
      | none => simp [FactorizationMachine.forward, hmul, hsum, hr, hso]
      | some interaction => simp [FactorizationMachine.forward, hmul, hsum, hr, hso]

/-! ### Characterization of the embedding-model dot-product block, by rank -/

/-- 1-D index batches of length `B ≥ 2`, with `n_factors ≥ 2`: the dot
block returns the per-pair latent dot product, shape `(B,)`. -/
theorem mfDot_rank1 (wx wy : Tensor) (uids iids : IdxTensor) (nu ni k B : ℕ)
    (hwx : wx.shape = [nu, k]) (hwy : wy.shape = [ni, k])
    (hu : uids.shape = [B]) (hi : iids.shape = [B]) (hB1 : B ≠ 1) (hk1 : k ≠ 1) :
    (mfDot wx wy uids iids).map Tensor.shape = some [B]
      ∧ ∀ b, b < B → (mfDot wx wy uids iids).map (fun t => t.data [b])
        = some (∑ f in Finset.range k,
            wx.data [uids.data [b], f] * wy.data [iids.data [b], f]) := by
  constructor
  · simp [mfDot, embLookup, Tensor.squeeze, squeezeShape, unsqueezeIdx, Tensor.mul,
      bcastShape_self, Tensor.sumAxis, hwx, hwy, hu, hi, hB1, hk1]
  · intro b hb
    simp [mfDot, embLookup, Tensor.squeeze, squeezeShape, unsqueezeIdx, Tensor.mul,
      bcastShape_self, bcastIdx, Tensor.sumAxis, hwx, hwy, hu, hi, hB1, hk1]

theorem list_sum_map_range (f : ℕ → ℚ) : ∀ n : ℕ,
    ((List.range n).map f).sum = ∑ i in Finset.range n, f i := by
  intro n
  induction n with
  | zero => simp
  | succ n ih =>
    rw [List.range_succ, List.map_append, List.sum_append, Finset.sum_range_succ, ih]
    simp

theorem list_flatMap_singleton {α β : Type} (f : α → β) : ∀ l : List α,
    (l.flatMap fun i => [f i]) = l.map f
  | [] => rfl
  | a :: l => by
    rw [List.flatMap_cons, List.map_cons, list_flatMap_singleton f l]
    rfl

theorem allIdx_singleton (k : ℕ) : allIdx [k] = (List.range k).map (fun i => [i]) := by
  simp only [allIdx]
  exact list_flatMap_singleton (fun i => [i]) (List.range k)

theorem allIdx_map_sum (g : List ℕ → ℚ) (k : ℕ) :
    ((allIdx [k]).map g).sum = ∑ i in Finset.range k, g [i] := by
  rw [allIdx_singleton, List.map_map]
  exact list_sum_map_range (fun i => g [i]) k

/-- Scalar (rank-0) index inputs, `n_factors ≥ 2`: the dot block returns the
latent dot product of the single pair as a rank-0 tensor. -/
theorem mfDot_rank0 (wx wy : Tensor) (uids iids : IdxTensor) (nu ni k : ℕ)
    (hwx : wx.shape = [nu, k]) (hwy : wy.shape = [ni, k])
    (hu : uids.shape = []) (hi : iids.shape = []) (hk1 : k ≠ 1) :
    (mfDot wx wy uids iids).map Tensor.shape = some []
      ∧ (mfDot wx wy uids iids).map (fun t => t.data [])
        = some (∑ f in Finset.range k,
            wx.data [uids.data [], f] * wy.data [iids.data [], f]) := by
  constructor
  · simp [mfDot, embLookup, Tensor.squeeze, squeezeShape, unsqueezeIdx, Tensor.mul,
      bcastShape_self, Tensor.sumAll, hwx, hwy, hu, hi, hk1]
  · simp [mfDot, embLookup, Tensor.squeeze, squeezeShape, unsqueezeIdx, Tensor.mul,
      bcastShape_self, bcastIdx, Tensor.sumAll, allIdx_map_sum, hwx, hwy, hu, hi, hk1]

/-- 2-D index batches with both dims ≥ 2 and `n_factors ≥ 2`: the dot block
returns the per-pair latent dot product, shape `(B1, B2)`. -/
theorem mfDot_rank2 (wx wy : Tensor) (uids iids : IdxTensor) (nu ni k B1 B2 : ℕ)
    (hwx : wx.shape = [nu, k]) (hwy : wy.shape = [ni, k])
    (hu : uids.shape = [B1, B2]) (hi : iids.shape = [B1, B2])
    (h11 : B1 ≠ 1) (h21 : B2 ≠ 1) (hk1 : k ≠ 1) :
    (mfDot wx wy uids iids).map Tensor.shape = some [B1, B2]
      ∧ ∀ a b, a < B1 → b < B2 → (mfDot wx wy uids iids).map (fun t => t.data [a, b])
        = some (∑ f in Finset.range k,
            wx.data [uids.data [a, b], f] * wy.data [iids.data [a, b], f]) := by
  constructor
  · simp [mfDot, embLookup, Tensor.squeeze, squeezeShape, unsqueezeIdx, Tensor.mul,
      bcastShape_self, Tensor.sumAxis, hwx, hwy, hu, hi, h11, h21, hk1]
  · intro a b ha hb
    simp [mfDot, embLookup, Tensor.squeeze, squeezeShape, unsqueezeIdx, Tensor.mul,
      bcastShape_self, bcastIdx, Tensor.sumAxis, hwx, hwy, hu, hi, h11, h21, hk1]

/-- 3-D index batches with all dims ≥ 2 and `n_factors ≥ 2` (gathered rank
4 > 3): the dot block takes the `sum(2)` branch, reducing the third batch
axis instead of the factor axis — shape `(d1, d2, n_factors)`. -/
theorem mfDot_rank3 (wx wy : Tensor) (uids iids : IdxTensor) (nu ni k d1 d2 d3 : ℕ)
    (hwx : wx.shape = [nu, k]) (hwy : wy.shape = [ni, k])
    (hu : uids.shape = [d1, d2, d3]) (hi : iids.shape = [d1, d2, d3])
    (h1 : 2 ≤ d1) (h2 : 2 ≤ d2) (h3 : 2 ≤ d3) (hk : 2 ≤ k) :
    (mfDot wx wy uids iids).map Tensor.shape = some [d1, d2, k]
      ∧ ∀ a b f, a < d1 → b < d2 → f < k →
        (mfDot wx wy uids iids).map (fun t => t.data [a, b, f])
          = some (∑ j in Finset.range d3,
              wx.data [uids.data [a, b, j], f] * wy.data [iids.data [a, b, j], f]) := by
  have h11 : d1 ≠ 1 := by omega
  have h21 : d2 ≠ 1 := by omega
  have h31 : d3 ≠ 1 := by omega
  have hk1 : k ≠ 1 := by omega
  constructor
  · simp [mfDot, embLookup, Tensor.squeeze, squeezeShape, unsqueezeIdx, Tensor.mul,
      bcastShape_self, Tensor.sumAxis, hwx, hwy, hu, hi, h11, h21, h31, hk1]
  · intro a b f ha hb hf
    simp [mfDot, embLookup, Tensor.squeeze, squeezeShape, unsqueezeIdx, Tensor.mul,
      bcastShape_self, bcastIdx, Tensor.sumAxis, hwx, hwy, hu, hi, h11, h21, h31, hk1]

/-! ### Characterization of the bias model's forward, by rank -/

/-- Bias model on 1-D index batches (`B ≥ 2`, `n_factors ≥ 2`): per-pair
bias sum plus latent dot product, shape `(B,)`. -/
theorem mf_forward_rank1 (m : MatrixFactorizationModel) (uids iids : IdxTensor) (k B : ℕ)
    (hwx : m.x.shape = [m.n_users, k]) (hwy : m.y.shape = [m.n_items, k])
    (hub : m.user_biases.shape = [m.n_users, 1]) (hib : m.item_biases.shape = [m.n_items, 1])
    (hu : uids.shape = [B]) (hi : iids.shape = [B]) (hB1 : B ≠ 1) (hk1 : k ≠ 1) :
    ((m.forward uids iids).2).map Tensor.shape = some [B]
      ∧ ∀ b, b < B → ((m.forward uids iids).2).map (fun t => t.data [b])
        = some (m.user_biases.data [uids.data [b], 0]
            + m.item_biases.data [iids.data [b], 0]
            + ∑ f in Finset.range k,
                m.x.data [uids.data [b], f] * m.y.data [iids.data [b], f]) := by
  have hdot := mfDot_rank1 m.x m.y uids iids m.n_users m.n_items k B hwx hwy hu hi hB1 hk1
  rcases hd : mfDot m.x m.y uids iids with _ | d
  · rw [hd] at hdot
    exact absurd hdot.1 (by simp)
  · rw [hd] at hdot
    have hds : d.shape = [B] := by simpa using hdot.1
    have hde : ∀ b, b < B → d.data [b]
        = ∑ f in Finset.range k,
            m.x.data [uids.data [b], f] * m.y.data [iids.data [b], f] := by
      intro b hb
      simpa using hdot.2 b hb
    constructor
    · simp [MatrixFactorizationModel.forward, embLookup, Tensor.squeeze, squeezeShape,
        unsqueezeIdx, Tensor.add, bcastShape_self, hd, hds, hub, hib, hu, hi, hB1]
    · intro b hb
      simp [MatrixFactorizationModel.forward, embLookup, Tensor.squeeze, squeezeShape,
        unsqueezeIdx, Tensor.add, bcastShape_self, bcastIdx, hd, hds, hde b hb,
        hub, hib, hu, hi, hB1]

/-- Bias model on scalar index inputs (`n_factors ≥ 2`): bias sum plus
latent dot product as a rank-0 tensor. -/
theorem mf_forward_rank0 (m : MatrixFactorizationModel) (uids iids : IdxTensor) (k : ℕ)
    (hwx : m.x.shape = [m.n_users, k]) (hwy : m.y.shape = [m.n_items, k])
    (hub : m.user_biases.shape = [m.n_users, 1]) (hib : m.item_biases.shape = [m.n_items, 1])
    (hu : uids.shape = []) (hi : iids.shape = []) (hk1 : k ≠ 1) :
    ((m.forward uids iids).2).map Tensor.shape = some []
      ∧ ((m.forward uids iids).2).map (fun t => t.data [])
        = some (m.user_biases.data [uids.data [], 0]
            + m.item_biases.data [iids.data [], 0]
            + ∑ f in Finset.range k,
                m.x.data [uids.data [], f] * m.y.data [iids.data [], f]) := by
  have hdot := mfDot_rank0 m.x m.y uids iids m.n_users m.n_items k hwx hwy hu hi hk1
  rcases hd : mfDot m.x m.y uids iids with _ | d
  · rw [hd] at hdot
    exact absurd hdot.1 (by simp)
  · rw [hd] at hdot
    have hds : d.shape = [] := by simpa using hdot.1
    have hde : d.data []
        = ∑ f in Finset.range k,
            m.x.data [uids.data [], f] * m.y.data [iids.data [], f] := by
      simpa using hdot.2
    constructor
    · simp [MatrixFactorizationModel.forward, embLookup, Tensor.squeeze, squeezeShape,
        unsqueezeIdx, Tensor.add, bcastShape_self, hd, hds, hub, hib, hu, hi]
    · simp [MatrixFactorizationModel.forward, embLookup, Tensor.squeeze, squeezeShape,
        unsqueezeIdx, Tensor.add, bcastShape_self, bcastIdx, hd, hds, hde,
        hub, hib, hu, hi]

/-- Bias model on 2-D index batches (both dims ≥ 2, `n_factors ≥ 2`):
per-pair bias sum plus latent dot product, shape `(B1, B2)`. -/
theorem mf_forward_rank2 (m : MatrixFactorizationModel) (uids iids : IdxTensor)
    (k B1 B2 : ℕ)
    (hwx : m.x.shape = [m.n_users, k]) (hwy : m.y.shape = [m.n_items, k])
    (hub : m.user_biases.shape = [m.n_users, 1]) (hib : m.item_biases.shape = [m.n_items, 1])
    (hu : uids.shape = [B1, B2]) (hi : iids.shape = [B1, B2])
    (h11 : B1 ≠ 1) (h21 : B2 ≠ 1) (hk1 : k ≠ 1) :
    ((m.forward uids iids).2).map Tensor.shape = some [B1, B2]
      ∧ ∀ a b, a < B1 → b < B2 → ((m.forward uids iids).2).map (fun t => t.data [a, b])
        = some (m.user_biases.data [uids.data [a, b], 0]
            + m.item_biases.data [iids.data [a, b], 0]
            + ∑ f in Finset.range k,
                m.x.data [uids.data [a, b], f] * m.y.data [iids.data [a, b], f]) := by
  have hdot := mfDot_rank2 m.x m.y uids iids m.n_users m.n_items k B1 B2 hwx hwy hu hi h11 h21 hk1
  rcases hd : mfDot m.x m.y uids iids with _ | d
  · rw [hd] at hdot
    exact absurd hdot.1 (by simp)
  · rw [hd] at hdot
    have hds : d.shape = [B1, B2] := by simpa using hdot.1
    have hde : ∀ a b, a < B1 → b < B2 → d.data [a, b]
        = ∑ f in Finset.range k,
            m.x.data [uids.data [a, b], f] * m.y.data [iids.data [a, b], f] := by
      intro a b ha hb
      simpa using hdot.2 a b ha hb
    constructor
    · simp [MatrixFactorizationModel.forward, embLookup, Tensor.squeeze, squeezeShape,
        unsqueezeIdx, Tensor.add, bcastShape_self, hd, hds, hub, hib, hu, hi, h11, h21]
    · intro a b ha hb
      simp [MatrixFactorizationModel.forward, embLookup, Tensor.squeeze, squeezeShape,
        unsqueezeIdx, Tensor.add, bcastShape_self, bcastIdx, hd, hds, hde a b ha hb,
        hub, hib, hu, hi, h11, h21]

/-! ### Membership in the index enumeration -/

theorem mem_allIdx_one {B : ℕ} {l : List ℕ} (h : l ∈ allIdx [B]) :
    ∃ b, b < B ∧ l = [b] := by
  rw [allIdx_singleton] at h
  simp only [List.mem_map, List.mem_range] at h
  obtain ⟨b, hb, rfl⟩ := h
  exact ⟨b, hb, rfl⟩

theorem mem_allIdx_two {B1 B2 : ℕ} {l : List ℕ} (h : l ∈ allIdx [B1, B2]) :
    ∃ a b, a < B1 ∧ b < B2 ∧ l = [a, b] := by
  simp [allIdx] at h
  obtain ⟨a, ha, l2, ⟨b, hb, rfl⟩, rfl⟩ := h
  exact ⟨a, b, ha, hb, rfl⟩

/-! ### Singleton batch dimensions: squeeze collapses them -/

/-- 1-D index batches of length 1: the gathered `(1, k)` tensor squeezes to
rank 1, so the dot block takes the no-axis single-sum branch and returns the
pair's latent dot product as a rank-0 tensor. -/
theorem mfDot_rank1_one (wx wy : Tensor) (uids iids : IdxTensor) (nu ni k : ℕ)
    (hwx : wx.shape = [nu, k]) (hwy : wy.shape = [ni, k])
    (hu : uids.shape = [1]) (hi : iids.shape = [1]) (hk1 : k ≠ 1) :
    (mfDot wx wy uids iids).map Tensor.shape = some []
      ∧ (mfDot wx wy uids iids).map (fun t => t.data [])
        = some (∑ f in Finset.range k,
            wx.data [uids.data [0], f] * wy.data [iids.data [0], f]) := by
  constructor
  · simp [mfDot, embLookup, Tensor.squeeze, squeezeShape, unsqueezeIdx, Tensor.mul,
      bcastShape_self, Tensor.sumAll, hwx, hwy, hu, hi, hk1]
  · simp [mfDot, embLookup, Tensor.squeeze, squeezeShape, unsqueezeIdx, Tensor.mul,
      bcastShape_self, bcastIdx, Tensor.sumAll, allIdx_map_sum, hwx, hwy, hu, hi, hk1]

/-- 2-D index batches of shape `(1, 1)`: squeezed to rank 1, single-sum
branch, rank-0 output. -/
theorem mfDot_rank2_oneone (wx wy : Tensor) (uids iids : IdxTensor) (nu ni k : ℕ)
    (hwx : wx.shape = [nu, k]) (hwy : wy.shape = [ni, k])
    (hu : uids.shape = [1, 1]) (hi : iids.shape = [1, 1]) (hk1 : k ≠ 1) :
    (mfDot wx wy uids iids).map Tensor.shape = some []
      ∧ (mfDot wx wy uids iids).map (fun t => t.data [])
        = some (∑ f in Finset.range k,
            wx.data [uids.data [0, 0], f] * wy.data [iids.data [0, 0], f]) := by
  constructor
  · simp [mfDot, embLookup, Tensor.squeeze, squeezeShape, unsqueezeIdx, Tensor.mul,
      bcastShape_self, Tensor.sumAll, hwx, hwy, hu, hi, hk1]
  · simp [mfDot, embLookup, Tensor.squeeze, squeezeShape, unsqueezeIdx, Tensor.mul,
      bcastShape_self, bcastIdx, Tensor.sumAll, allIdx_map_sum, hwx, hwy, hu, hi, hk1]

/-- 2-D index batches of shape `(1, B2)`, `B2 ≠ 1`: squeezed to rank 2, the
`sum(1)` branch reduces the factor axis, output shape `(B2,)`. -/
theorem mfDot_rank2_oneleft (wx wy : Tensor) (uids iids : IdxTensor) (nu ni k B2 : ℕ)
    (hwx : wx.shape = [nu, k]) (hwy : wy.shape = [ni, k])
    (hu : uids.shape = [1, B2]) (hi : iids.shape = [1, B2])
    (h21 : B2 ≠ 1) (hk1 : k ≠ 1) :
    (mfDot wx wy uids iids).map Tensor.shape = some [B2]
      ∧ ∀ b, b < B2 → (mfDot wx wy uids iids).map (fun t => t.data [b])
        = some (∑ f in Finset.range k,
            wx.data [uids.data [0, b], f] * wy.data [iids.data [0, b], f]) := by
  constructor
  · simp [mfDot, embLookup, Tensor.squeeze, squeezeShape, unsqueezeIdx, Tensor.mul,
      bcastShape_self, Tensor.sumAxis, hwx, hwy, hu, hi, h21, hk1]
  · intro b hb
    simp [mfDot, embLookup, Tensor.squeeze, squeezeShape, unsqueezeIdx, Tensor.mul,
      bcastShape_self, bcastIdx, Tensor.sumAxis, hwx, hwy, hu, hi, h21, hk1]

/-- 2-D index batches of shape `(B1, 1)`, `B1 ≠ 1`: squeezed to rank 2, the
`sum(1)` branch reduces the factor axis, output shape `(B1,)`. -/
theorem mfDot_rank2_oneright (wx wy : Tensor) (uids iids : IdxTensor) (nu ni k B1 : ℕ)
    (hwx : wx.shape = [nu, k]) (hwy : wy.shape = [ni, k])
    (hu : uids.shape = [B1, 1]) (hi : iids.shape = [B1, 1])
    (h11 : B1 ≠ 1) (hk1 : k ≠ 1) :
    (mfDot wx wy uids iids).map Tensor.shape = some [B1]
      ∧ ∀ a, a < B1 → (mfDot wx wy uids iids).map (fun t => t.data [a])
        = some (∑ f in Finset.range k,
            wx.data [uids.data [a, 0], f] * wy.data [iids.data [a, 0], f]) := by
  constructor
  · simp [mfDot, embLookup, Tensor.squeeze, squeezeShape, unsqueezeIdx, Tensor.mul,
      bcastShape_self, Tensor.sumAxis, hwx, hwy, hu, hi, h11, hk1]
  · intro a ha
    simp [mfDot, embLookup, Tensor.squeeze, squeezeShape, unsqueezeIdx, Tensor.mul,
      bcastShape_self, bcastIdx, Tensor.sumAxis, hwx, hwy, hu, hi, h11, hk1]

/-- Bias model on a 1-D index batch of length 1: bias sum plus dot product
as a rank-0 tensor. -/
theorem mf_forward_rank1_one (m : MatrixFactorizationModel) (uids iids : IdxTensor) (k : ℕ)
    (hwx : m.x.shape = [m.n_users, k]) (hwy : m.y.shape = [m.n_items, k])
    (hub : m.user_biases.shape = [m.n_users, 1]) (hib : m.item_biases.shape = [m.n_items, 1])
    (hu : uids.shape = [1]) (hi : iids.shape = [1]) (hk1 : k ≠ 1) :
    ((m.forward uids iids).2).map Tensor.shape = some []
      ∧ ((m.forward uids iids).2).map (fun t => t.data [])
        = some (m.user_biases.data [uids.data [0], 0]
            + m.item_biases.data [iids.data [0], 0]
            + ∑ f in Finset.range k,
                m.x.data [uids.data [0], f] * m.y.data [iids.data [0], f]) := by
  have hdot := mfDot_rank1_one m.x m.y uids iids m.n_users m.n_items k hwx hwy hu hi hk1
  rcases hd : mfDot m.x m.y uids iids with _ | d
  · rw [hd] at hdot
    exact absurd hdot.1 (by simp)
  · rw [hd] at hdot
    have hds : d.shape = [] := by simpa using hdot.1
    have hde : d.data []
        = ∑ f in Finset.range k,
            m.x.data [uids.data [0], f] * m.y.data [iids.data [0], f] := by
      simpa using hdot.2
    constructor
    · simp [MatrixFactorizationModel.forward, embLookup, Tensor.squeeze, squeezeShape,
        unsqueezeIdx, Tensor.add, bcastShape_self, hd, hds, hub, hib, hu, hi]
    · simp [MatrixFactorizationModel.forward, embLookup, Tensor.squeeze, squeezeShape,
        unsqueezeIdx, Tensor.add, bcastShape_self, bcastIdx, hd, hds, hde,
        hub, hib, hu, hi]

/-- Bias model on a 2-D index batch of shape `(1, 1)`: bias sum plus dot
product as a rank-0 tensor. -/
theorem mf_forward_rank2_oneone (m : MatrixFactorizationModel) (uids iids : IdxTensor)
    (k : ℕ)
    (hwx : m.x.shape = [m.n_users, k]) (hwy : m.y.shape = [m.n_items, k])
    (hub : m.user_biases.shape = [m.n_users, 1]) (hib : m.item_biases.shape = [m.n_items, 1])
    (hu : uids.shape = [1, 1]) (hi : iids.shape = [1, 1]) (hk1 : k ≠ 1) :
    ((m.forward uids iids).2).map Tensor.shape = some []
      ∧ ((m.forward uids iids).2).map (fun t => t.data [])
        = some (m.user_biases.data [uids.data [0, 0], 0]
            + m.item_biases.data [iids.data [0, 0], 0]
            + ∑ f in Finset.range k,
                m.x.data [uids.data [0, 0], f] * m.y.data [iids.data [0, 0], f]) := by
  have hdot := mfDot_rank2_oneone m.x m.y uids iids m.n_users m.n_items k hwx hwy hu hi hk1
  rcases hd : mfDot m.x m.y uids iids with _ | d
  · rw [hd] at hdot
    exact absurd hdot.1 (by simp)
  · rw [hd] at hdot
    have hds : d.shape = [] := by simpa using hdot.1
    have hde : d.data []
        = ∑ f in Finset.range k,
            m.x.data [uids.data [0, 0], f] * m.y.data [iids.data [0, 0], f] := by
      simpa using hdot.2
    constructor
    · simp [MatrixFactorizationModel.forward, embLookup, Tensor.squeeze, squeezeShape,
        unsqueezeIdx, Tensor.add, bcastShape_self, hd, hds, hub, hib, hu, hi]
    · simp [MatrixFactorizationModel.forward, embLookup, Tensor.squeeze, squeezeShape,
        unsqueezeIdx, Tensor.add, bcastShape_self, bcastIdx, hd, hds, hde,
        hub, hib, hu, hi]

/-- Bias model on a 2-D index batch of shape `(1, B2)`, `B2 ≠ 1`: per-pair
bias sum plus dot product, output shape `(B2,)`. -/
theorem mf_forward_rank2_oneleft (m : MatrixFactorizationModel) (uids iids : IdxTensor)
    (k B2 : ℕ)
    (hwx : m.x.shape = [m.n_users, k]) (hwy : m.y.shape = [m.n_items, k])
    (hub : m.user_biases.shape = [m.n_users, 1]) (hib : m.item_biases.shape = [m.n_items, 1])
    (hu : uids.shape = [1, B2]) (hi : iids.shape = [1, B2])
    (h21 : B2 ≠ 1) (hk1 : k ≠ 1) :
    ((m.forward uids iids).2).map Tensor.shape = some [B2]
      ∧ ∀ b, b < B2 → ((m.forward uids iids).2).map (fun t => t.data [b])
        = some (m.user_biases.data [uids.data [0, b], 0]
            + m.item_biases.data [iids.data [0, b], 0]
            + ∑ f in Finset.range k,
                m.x.data [uids.data [0, b], f] * m.y.data [iids.data [0, b], f]) := by
  have hdot := mfDot_rank2_oneleft m.x m.y uids iids m.n_users m.n_items k B2
    hwx hwy hu hi h21 hk1
  rcases hd : mfDot m.x m.y uids iids with _ | d
  · rw [hd] at hdot
    exact absurd hdot.1 (by simp)
  · rw [hd] at hdot
    have hds : d.shape = [B2] := by simpa using hdot.1
    have hde : ∀ b, b < B2 → d.data [b]
        = ∑ f in Finset.range k,
            m.x.data [uids.data [0, b], f] * m.y.data [iids.data [0, b], f] := by
      intro b hb
      simpa using hdot.2 b hb
    constructor
    · simp [MatrixFactorizationModel.forward, embLookup, Tensor.squeeze, squeezeShape,
        unsqueezeIdx, Tensor.add, bcastShape_self, hd, hds, hub, hib, hu, hi, h21]
    · intro b hb
      simp [MatrixFactorizationModel.forward, embLookup, Tensor.squeeze, squeezeShape,
        unsqueezeIdx, Tensor.add, bcastShape_self, bcastIdx, hd, hds, hde b hb,
        hub, hib, hu, hi, h21]

/-- Bias model on a 2-D index batch of shape `(B1, 1)`, `B1 ≠ 1`: per-pair
bias sum plus dot product, output shape `(B1,)`. -/
theorem mf_forward_rank2_oneright (m : MatrixFactorizationModel) (uids iids : IdxTensor)
    (k B1 : ℕ)
    (hwx : m.x.shape = [m.n_users, k]) (hwy : m.y.shape = [m.n_items, k])
    (hub : m.user_biases.shape = [m.n_users, 1]) (hib : m.item_biases.shape = [m.n_items, 1])
    (hu : uids.shape = [B1, 1]) (hi : iids.shape = [B1, 1])
    (h11 : B1 ≠ 1) (hk1 : k ≠ 1) :
    ((m.forward uids iids).2).map Tensor.shape = some [B1]
      ∧ ∀ a, a < B1 → ((m.forward uids iids).2).map (fun t => t.data [a])
        = some (m.user_biases.data [uids.data [a, 0], 0]
            + m.item_biases.data [iids.data [a, 0], 0]
            + ∑ f in Finset.range k,
                m.x.data [uids.data [a, 0], f] * m.y.data [iids.data [a, 0], f]) := by
  have hdot := mfDot_rank2_oneright m.x m.y uids iids m.n_users m.n_items k B1
    hwx hwy hu hi h11 hk1
  rcases hd : mfDot m.x m.y uids iids with _ | d
  · rw [hd] at hdot
    exact absurd hdot.1 (by simp)
  · rw [hd] at hdot
    have hds : d.shape = [B1] := by simpa using hdot.1
    have hde : ∀ a, a < B1 → d.data [a]
        = ∑ f in Finset.range k,
            m.x.data [uids.data [a, 0], f] * m.y.data [iids.data [a, 0], f] := by
      intro a ha
      simpa using hdot.2 a ha
    constructor
    · simp [MatrixFactorizationModel.forward, embLookup, Tensor.squeeze, squeezeShape,
        unsqueezeIdx, Tensor.add, bcastShape_self, hd, hds, hub, hib, hu, hi, h11]
    · intro a ha
      simp [MatrixFactorizationModel.forward, embLookup, Tensor.squeeze, squeezeShape,
        unsqueezeIdx, Tensor.add, bcastShape_self, bcastIdx, hd, hds, hde a ha,
        hub, hib, hu, hi, h11]

/-! ### Combining entry characterizations into extensional output equality -/

theorem oeq_scalar_of (oM oS : Option Tensor) (v w : ℚ)
    (h1 : oM.map Tensor.shape = some []) (h2 : oS.map Tensor.shape = some [])
    (h3 : oM.map (fun t => t.data []) = some v)
    (h4 : oS.map (fun t => t.data []) = some w) (hvw : v = w) : oeq oM oS := by
  rcases oM with _ | tM
  · simp at h1
  rcases oS with _ | tS
  · simp at h2
  simp only [Option.map_some', Option.some.injEq] at h1 h2 h3 h4
  show teq tM tS
  refine ⟨h1.trans h2.symm, fun idx hidx => ?_⟩
  rw [h1] at hidx
  simp only [allIdx, List.mem_singleton] at hidx
  subst hidx
  rw [h3, h4, hvw]

theorem oeq_vec_of (oM oS : Option Tensor) (B : ℕ) (vM vS : ℕ → ℚ)
    (h1 : oM.map Tensor.shape = some [B]) (h2 : oS.map Tensor.shape = some [B])
    (h3 : ∀ b, b < B → oM.map (fun t => t.data [b]) = some (vM b))
    (h4 : ∀ b, b < B → oS.map (fun t => t.data [b]) = some (vS b))
    (hvw : ∀ b, b < B → vM b = vS b) : oeq oM oS := by
  rcases oM with _ | tM
  · simp at h1
  rcases oS with _ | tS
  · simp at h2
  simp only [Option.map_some', Option.some.injEq] at h1 h2
  show teq tM tS
  refine ⟨h1.trans h2.symm, fun idx hidx => ?_⟩
  rw [h1] at hidx
  obtain ⟨b, hb, rfl⟩ := mem_allIdx_one hidx
  have e3 := h3 b hb
  have e4 := h4 b hb
  simp only [Option.map_some', Option.some.injEq] at e3 e4
  rw [e3, e4, hvw b hb]

theorem oeq_mat_of (oM oS : Option Tensor) (B1 B2 : ℕ) (vM vS : ℕ → ℕ → ℚ)
    (h1 : oM.map Tensor.shape = some [B1, B2]) (h2 : oS.map Tensor.shape = some [B1, B2])
    (h3 : ∀ a b, a < B1 → b < B2 → oM.map (fun t => t.data [a, b]) = some (vM a b))
    (h4 : ∀ a b, a < B1 → b < B2 → oS.map (fun t => t.data [a, b]) = some (vS a b))
    (hvw : ∀ a b, a < B1 → b < B2 → vM a b = vS a b) : oeq oM oS := by
  rcases oM with _ | tM
  · simp at h1
  rcases oS with _ | tS
  · simp at h2
  simp only [Option.map_some', Option.some.injEq] at h1 h2
  show teq tM tS
  refine ⟨h1.trans h2.symm, fun idx hidx => ?_⟩
  rw [h1] at hidx
  obtain ⟨a, b, ha, hb, rfl⟩ := mem_allIdx_two hidx
  have e3 := h3 a b ha hb
  have e4 := h4 a b ha hb
  simp only [Option.map_some', Option.some.injEq] at e3 e4
  rw [e3, e4, hvw a b ha hb]

/-! ### Concrete instances for counterexamples and witnesses -/

/-- Factor matrix of shape `(2, 1)` with rows `[1]` and `[2]`. -/
def wA : Tensor := ⟨[2, 1], fun idx => (idx.headD 0 : ℚ) + 1⟩

/-- Factor matrix of shape `(2, 2)` with rows `[1, 2]` and `[3, 4]`. -/
def wB : Tensor := ⟨[2, 2], fun idx => (idx.headD 0 : ℚ) * 2 + (idx.getD 1 0 : ℚ) + 1⟩

/-- All-zero bias table of shape `(2, 1)`. -/
def zB : Tensor := ⟨[2, 1], fun _ => 0⟩

/-- 1-D index batch `[0, 1]`. -/
def ids2 : IdxTensor := ⟨[2], fun idx => idx.headD 0⟩

/-- 2-D index batch of shape `(2, 2)`. -/
def ids22 : IdxTensor := ⟨[2, 2], fun idx => (idx.headD 0 + idx.getD 1 0) % 2⟩

/-- 3-D index batch of shape `(2, 2, 2)`. -/
def ids222 : IdxTensor :=
  ⟨[2, 2, 2], fun idx => (idx.headD 0 + idx.getD 1 0 + idx.getD 2 0) % 2⟩

/-- 3-D index batch of shape `(1, 1, 1)`. -/
def ids111 : IdxTensor := ⟨[1, 1, 1], fun _ => 1⟩

/-- 1-D index batch of length 1. -/
def ids1 : IdxTensor := ⟨[1], fun _ => 1⟩

/-- Scalar (rank-0) index input with value 1. -/
def ids0 : IdxTensor := ⟨[], fun _ => 1⟩

/-- Bias-free model with `n_factors = 1`. -/
def smA : SimpleMatrixFactorizationModel := ⟨2, 2, 1, wA, wA⟩

/-- Bias-free model with `n_factors = 2`. -/
def smB : SimpleMatrixFactorizationModel := ⟨2, 2, 2, wB, wB⟩

/-- Bias model with `n_factors = 1` and all-zero biases. -/
def mfA : MatrixFactorizationModel := ⟨2, 2, 1, wA, wA, zB, zB⟩

/-- Bias model with `n_factors = 2` and all-zero biases. -/
def mfB : MatrixFactorizationModel := ⟨2, 2, 2, wB, wB, zB, zB⟩

/-- The unbatched single-sum reduction path: the final `else` branch of the
dot-product block (element-wise product followed by the no-axis full sum). -/
def singleSumPath (wx wy : Tensor) (uids iids : IdxTensor) : Option Tensor :=
  ((embLookup wx uids).squeeze.mul ((embLookup wy iids).squeeze)).map Tensor.sumAll

/-! ### Claims C3 and C4 -/

/-- C3 counterexample: with `n_factors = 1` and a 1-D batch of two index
pairs, `squeeze` also drops the factor axis, the reduction collapses the
batch axis, and the forward output is a rank-0 scalar instead of a
length-2 vector with the input batch's leading shape. -/
theorem embedding_forward_rank_claim_counterexample :
    ((smA.forward ids2 ids2).2).map Tensor.shape = some []
      ∧ ¬ (((smA.forward ids2 ids2).2).map Tensor.shape = some [2]) :=
  ⟨by decide, by decide⟩

/-- C3 amended: for `n_factors ≥ 2` and index batches that are scalar, 1-D,
or 2-D with every batch dimension ≥ 2, both embedding models produce one
latent dot product per pair (plus the user/item bias sum for the
bias-enabled model), with output shape equal to the index batch shape.
(For `n_factors = 1`, or singleton batch dimensions, `squeeze` collapses
the needed axes and the claim fails, as the counterexample shows.) -/
theorem embedding_forward_rank_cases :
    (∀ (m : SimpleMatrixFactorizationModel) (uids iids : IdxTensor) (k : ℕ),
      m.x.shape = [m.n_users, k] → m.y.shape = [m.n_items, k]
      → uids.shape = [] → iids.shape = [] → 2 ≤ k →
      ((m.forward uids iids).2).map Tensor.shape = some []
        ∧ ((m.forward uids iids).2).map (fun t => t.data [])
          = some (∑ f in Finset.range k,
              m.x.data [uids.data [], f] * m.y.data [iids.data [], f]))
    ∧ (∀ (m : SimpleMatrixFactorizationModel) (uids iids : IdxTensor) (k B : ℕ),
      m.x.shape = [m.n_users, k] → m.y.shape = [m.n_items, k]
      → uids.shape = [B] → iids.shape = [B] → 2 ≤ B → 2 ≤ k →
      ((m.forward uids iids).2).map Tensor.shape = some [B]
        ∧ ∀ b, b < B → ((m.forward uids iids).2).map (fun t => t.data [b])
          = some (∑ f in Finset.range k,
              m.x.data [uids.data [b], f] * m.y.data [iids.data [b], f]))
    ∧ (∀ (m : SimpleMatrixFactorizationModel) (uids iids : IdxTensor) (k B1 B2 : ℕ),
      m.x.shape = [m.n_users, k] → m.y.shape = [m.n_items, k]
      → uids.shape = [B1, B2] → iids.shape = [B1, B2] → 2 ≤ B1 → 2 ≤ B2 → 2 ≤ k →
      ((m.forward uids iids).2).map Tensor.shape = some [B1, B2]
        ∧ ∀ a b, a < B1 → b < B2 →
          ((m.forward uids iids).2).map (fun t => t.data [a, b])
            = some (∑ f in Finset.range k,
                m.x.data [uids.data [a, b], f] * m.y.data [iids.data [a, b], f]))
    ∧ (∀ (m : MatrixFactorizationModel) (uids iids : IdxTensor) (k : ℕ),
      m.x.shape = [m.n_users, k] → m.y.shape = [m.n_items, k]
      → m.user_biases.shape = [m.n_users, 1] → m.item_biases.shape = [m.n_items, 1]
      → uids.shape = [] → iids.shape = [] → 2 ≤ k →
      ((m.forward uids iids).2).map Tensor.shape = some []
        ∧ ((m.forward uids iids).2).map (fun t => t.data [])
          = some (m.user_biases.data [uids.data [], 0]
              + m.item_biases.data [iids.data [], 0]
              + ∑ f in Finset.range k,
                  m.x.data [uids.data [], f] * m.y.data [iids.data [], f]))
    ∧ (∀ (m : MatrixFactorizationModel) (uids iids : IdxTensor) (k B : ℕ),
      m.x.shape = [m.n_users, k] → m.y.shape = [m.n_items, k]
      → m.user_biases.shape = [m.n_users, 1] → m.item_biases.shape = [m.n_items, 1]
      → uids.shape = [B] → iids.shape = [B] → 2 ≤ B → 2 ≤ k →
      ((m.forward uids iids).2).map Tensor.shape = some [B]
        ∧ ∀ b, b < B → ((m.forward uids iids).2).map (fun t => t.data [b])
          = some (m.user_biases.data [uids.data [b], 0]
              + m.item_biases.data [iids.data [b], 0]
              + ∑ f in Finset.range k,
                  m.x.data [uids.data [b], f] * m.y.data [iids.data [b], f]))
    ∧ (∀ (m : MatrixFactorizationModel) (uids iids : IdxTensor) (k B1 B2 : ℕ),
      m.x.shape = [m.n_users, k] → m.y.shape = [m.n_items, k]
      → m.user_biases.shape = [m.n_users, 1] → m.item_biases.shape = [m.n_items, 1]
      → uids.shape = [B1, B2] → iids.shape = [B1, B2] → 2 ≤ B1 → 2 ≤ B2 → 2 ≤ k →
      ((m.forward uids iids).2).map Tensor.shape = some [B1, B2]
        ∧ ∀ a b, a < B1 → b < B2 →
          ((m.forward uids iids).2).map (fun t => t.data [a, b])
            = some (m.user_biases.data [uids.data [a, b], 0]
                + m.item_biases.data [iids.data [a, b], 0]
                + ∑ f in Finset.range k,
                    m.x.data [uids.data [a, b], f] * m.y.data [iids.data [a, b], f])) :=
  ⟨fun m uids iids k hwx hwy hu hi hk =>
    mfDot_rank0 m.x m.y uids iids m.n_users m.n_items k hwx hwy hu hi (by omega),
   fun m uids iids k B hwx hwy hu hi hB hk =>
    mfDot_rank1 m.x m.y uids iids m.n_users m.n_items k B hwx hwy hu hi (by omega) (by omega),
   fun m uids iids k B1 B2 hwx hwy hu hi h1 h2 hk =>
    mfDot_rank2 m.x m.y uids iids m.n_users m.n_items k B1 B2 hwx hwy hu hi (by omega)
      (by omega) (by omega),
   fun m uids iids k hwx hwy hub hib hu hi hk =>
    mf_forward_rank0 m uids iids k hwx hwy hub hib hu hi (by omega),
   fun m uids iids k B hwx hwy hub hib hu hi hB hk =>
    mf_forward_rank1 m uids iids k B hwx hwy hub hib hu hi (by omega) (by omega),
   fun m uids iids k B1 B2 hwx hwy hub hib hu hi h1 h2 hk =>
    mf_forward_rank2 m uids iids k B1 B2 hwx hwy hub hib hu hi (by omega) (by omega)
      (by omega)⟩

theorem embedding_forward_rank_cases_witness :
    (((smB.forward ids0 ids0).2).map Tensor.shape = some []
      ∧ ((smB.forward ids0 ids0).2).map (fun t => t.data [])
        = some (∑ f in Finset.range 2,
            smB.x.data [ids0.data [], f] * smB.y.data [ids0.data [], f]))
    ∧ (((smB.forward ids2 ids2).2).map Tensor.shape = some [2]
      ∧ ((smB.forward ids2 ids2).2).map (fun t => t.data [1])
        = some (∑ f in Finset.range 2,
            smB.x.data [ids2.data [1], f] * smB.y.data [ids2.data [1], f]))
    ∧ (((smB.forward ids22 ids22).2).map Tensor.shape = some [2, 2]
      ∧ ((smB.forward ids22 ids22).2).map (fun t => t.data [0, 1])
        = some (∑ f in Finset.range 2,
            smB.x.data [ids22.data [0, 1], f] * smB.y.data [ids22.data [0, 1], f]))
    ∧ (((mfB.forward ids0 ids0).2).map Tensor.shape = some []
      ∧ ((mfB.forward ids0 ids0).2).map (fun t => t.data [])
        = some (mfB.user_biases.data [ids0.data [], 0]
            + mfB.item_biases.data [ids0.data [], 0]
            + ∑ f in Finset.range 2,
                mfB.x.data [ids0.data [], f] * mfB.y.data [ids0.data [], f]))
    ∧ (((mfB.forward ids2 ids2).2).map Tensor.shape = some [2]
      ∧ ((mfB.forward ids2 ids2).2).map (fun t => t.data [1])
        = some (mfB.user_biases.data [ids2.data [1], 0]
            + mfB.item_biases.data [ids2.data [1], 0]
            + ∑ f in Finset.range 2,
                mfB.x.data [ids2.data [1], f] * mfB.y.data [ids2.data [1], f]))
    ∧ (((mfB.forward ids22 ids22).2).map Tensor.shape = some [2, 2]
      ∧ ((mfB.forward ids22 ids22).2).map (fun t => t.data [0, 1])
        = some (mfB.user_biases.data [ids22.data [0, 1], 0]
            + mfB.item_biases.data [ids22.data [0, 1], 0]
            + ∑ f in Finset.range 2,
                mfB.x.data [ids22.data [0, 1], f] * mfB.y.data [ids22.data [0, 1], f])) := by
  refine ⟨⟨?_, ?_⟩, ⟨?_, ?_⟩, ⟨?_, ?_⟩, ⟨?_, ?_⟩, ⟨?_, ?_⟩, ⟨?_, ?_⟩⟩
  · exact (embedding_forward_rank_cases.1 smB ids0 ids0 2 rfl rfl rfl rfl (by decide)).1
  · exact (embedding_forward_rank_cases.1 smB ids0 ids0 2 rfl rfl rfl rfl (by decide)).2
  · exact (embedding_forward_rank_cases.2.1 smB ids2 ids2 2 2 rfl rfl rfl rfl (by decide)
      (by decide)).1
  · exact (embedding_forward_rank_cases.2.1 smB ids2 ids2 2 2 rfl rfl rfl rfl (by decide)
      (by decide)).2 1 (by decide)
  · exact (embedding_forward_rank_cases.2.2.1 smB ids22 ids22 2 2 2 rfl rfl rfl rfl
      (by decide) (by decide) (by decide)).1
  · exact (embedding_forward_rank_cases.2.2.1 smB ids22 ids22 2 2 2 rfl rfl rfl rfl
      (by decide) (by decide) (by decide)).2 0 1 (by decide) (by decide)
  · exact (embedding_forward_rank_cases.2.2.2.1 mfB ids0 ids0 2 rfl rfl rfl rfl rfl rfl
      (by decide)).1
  · exact (embedding_forward_rank_cases.2.2.2.1 mfB ids0 ids0 2 rfl rfl rfl rfl rfl rfl
      (by decide)).2
  · exact (embedding_forward_rank_cases.2.2.2.2.1 mfB ids2 ids2 2 2 rfl rfl rfl rfl rfl rfl
      (by decide) (by decide)).1
  · exact (embedding_forward_rank_cases.2.2.2.2.1 mfB ids2 ids2 2 2 rfl rfl rfl rfl rfl rfl
      (by decide) (by decide)).2 1 (by decide)
  · exact (embedding_forward_rank_cases.2.2.2.2.2 mfB ids22 ids22 2 2 2 rfl rfl rfl rfl rfl
      rfl (by decide) (by decide) (by decide)).1
  · exact (embedding_forward_rank_cases.2.2.2.2.2 mfB ids22 ids22 2 2 2 rfl rfl rfl rfl rfl
      rfl (by decide) (by decide) (by decide)).2 0 1 (by decide) (by decide)

/-- C4 counterexample: for a rank-3 index batch (gathered shape of rank
4 > 3), the forward pass does not fall through to the unbatched single-sum
reduction path: it takes the `sum(2)` branch and returns a rank-3 tensor,
while the single-sum path would return a rank-0 scalar. -/
theorem rank_gt3_fallthrough_counterexample :
    ¬ oeq ((smB.forward ids222 ids222).2) (singleSumPath wB wB ids222 ids222) := by
  decide

/-- C4 amended: a gathered shape of rank 4 (> 3) does not, in general,
reach the unbatched single-sum path; the branch is decided by the rank
*after* `squeeze`, not the gathered rank.  For 3-D index batches (gathered
rank 4) with `n_factors ≥ 2`: when every batch dimension is ≥ 2, nothing is
squeezed away and forward takes the `len(size) > 2` branch (`sum(2)`) —
output shape `(d1, d2, n_factors)`, each entry summing over the third batch
axis rather than the factor axis, so no per-pair semantics; when instead
every batch dimension is 1, `squeeze` collapses the gathered tensor to rank
1 and forward does reach the single-sum fallthrough, returning exactly the
single-sum path's rank-0 result.  Either way the behavior is unsupported. -/
theorem rank_gt3_branch_dispatch :
    (∀ (m : SimpleMatrixFactorizationModel) (uids iids : IdxTensor) (k d1 d2 d3 : ℕ),
      m.x.shape = [m.n_users, k] → m.y.shape = [m.n_items, k]
      → uids.shape = [d1, d2, d3] → iids.shape = [d1, d2, d3]
      → 2 ≤ d1 → 2 ≤ d2 → 2 ≤ d3 → 2 ≤ k →
      ((m.forward uids iids).2).map Tensor.shape = some [d1, d2, k]
        ∧ ∀ a b f, a < d1 → b < d2 → f < k →
          ((m.forward uids iids).2).map (fun t => t.data [a, b, f])
            = some (∑ j in Finset.range d3,
                m.x.data [uids.data [a, b, j], f] * m.y.data [iids.data [a, b, j], f]))
    ∧ (∀ (m : SimpleMatrixFactorizationModel) (uids iids : IdxTensor) (k : ℕ),
      m.x.shape = [m.n_users, k] → m.y.shape = [m.n_items, k]
      → uids.shape = [1, 1, 1] → iids.shape = [1, 1, 1] → 2 ≤ k →
      (m.forward uids iids).2 = singleSumPath m.x m.y uids iids
        ∧ ((m.forward uids iids).2).map Tensor.shape = some []) := by
  constructor
  · intro m uids iids k d1 d2 d3 hwx hwy hu hi h1 h2 h3 hk
    exact mfDot_rank3 m.x m.y uids iids m.n_users m.n_items k d1 d2 d3 hwx hwy hu hi
      h1 h2 h3 hk
  · intro m uids iids k hwx hwy hu hi hk
    have hk1 : k ≠ 1 := by omega
    constructor
    · show mfDot m.x m.y uids iids = singleSumPath m.x m.y uids iids
      simp [mfDot, singleSumPath, embLookup, Tensor.squeeze, squeezeShape, unsqueezeIdx,
        Tensor.mul, bcastShape_self, hwx, hwy, hu, hi, hk1]
    · show (mfDot m.x m.y uids iids).map Tensor.shape = some []
      simp [mfDot, embLookup, Tensor.squeeze, squeezeShape, unsqueezeIdx, Tensor.mul,
        bcastShape_self, Tensor.sumAll, hwx, hwy, hu, hi, hk1]

theorem rank_gt3_branch_dispatch_witness :
    (((smB.forward ids222 ids222).2).map Tensor.shape = some [2, 2, 2]
      ∧ ((smB.forward ids222 ids222).2).map (fun t => t.data [0, 1, 1])
        = some (∑ j in Finset.range 2,
            smB.x.data [ids222.data [0, 1, j], 1] * smB.y.data [ids222.data [0, 1, j], 1]))
    ∧ ((smB.forward ids111 ids111).2 = singleSumPath smB.x smB.y ids111 ids111
      ∧ ((smB.forward ids111 ids111).2).map Tensor.shape = some []) :=
  ⟨⟨(rank_gt3_branch_dispatch.1 smB ids222 ids222 2 2 2 2 rfl rfl rfl rfl (by decide)
      (by decide) (by decide) (by decide)).1,
    (rank_gt3_branch_dispatch.1 smB ids222 ids222 2 2 2 2 rfl rfl rfl rfl (by decide)
      (by decide) (by decide) (by decide)).2 0 1 1 (by decide) (by decide) (by decide)⟩,
   rank_gt3_branch_dispatch.2 smB ids111 ids111 2 rfl rfl rfl rfl (by decide)⟩

/-! ### Claim C8 -/

/-- C8 counterexample: with `n_factors = 1`, identical factor matrices and
all-zero biases, on the 1-D batch `[0, 1]` the bias model returns a
length-2 vector while the bias-free model returns a rank-0 scalar — the two
outputs are not equal. -/
theorem bias_zero_equivalence_counterexample :
    ¬ oeq ((mfA.forward ids2 ids2).2) ((smA.forward ids2 ids2).2) := by
  decide

/-- C8 amended: with identical factor matrices, all bias values zero and
`n_factors ≥ 2`, the bias model's forward output is exactly equal (same
shape, same entries) to the bias-free model's output for every index batch
of the supported ranks — scalar pairs, and 1-D or 2-D batches with
arbitrary batch dimensions (singleton dimensions included).  (For
`n_factors = 1` the outputs can differ in shape, as the counterexample
shows.) -/
theorem bias_zero_equivalence (wx wy ub ib : Tensor) (nu ni k : ℕ)
    (hwx : wx.shape = [nu, k]) (hwy : wy.shape = [ni, k])
    (hub : ub.shape = [nu, 1]) (hib : ib.shape = [ni, 1])
    (hz1 : ∀ i, ub.data [i, 0] = 0) (hz2 : ∀ i, ib.data [i, 0] = 0) (hk : 2 ≤ k) :
    (∀ uids iids : IdxTensor, uids.shape = [] → iids.shape = [] →
      oeq (((MatrixFactorizationModel.mk nu ni k wx wy ub ib).forward uids iids).2)
        (((SimpleMatrixFactorizationModel.mk nu ni k wx wy).forward uids iids).2))
    ∧ (∀ (uids iids : IdxTensor) (B : ℕ), uids.shape = [B] → iids.shape = [B] →
      oeq (((MatrixFactorizationModel.mk nu ni k wx wy ub ib).forward uids iids).2)
        (((SimpleMatrixFactorizationModel.mk nu ni k wx wy).forward uids iids).2))
    ∧ (∀ (uids iids : IdxTensor) (B1 B2 : ℕ), uids.shape = [B1, B2]
        → iids.shape = [B1, B2] →
      oeq (((MatrixFactorizationModel.mk nu ni k wx wy ub ib).forward uids iids).2)
        (((SimpleMatrixFactorizationModel.mk nu ni k wx wy).forward uids iids).2)) := by
  have hk1 : k ≠ 1 := by omega
  refine ⟨fun uids iids hu hi => ?_, fun uids iids B hu hi => ?_,
    fun uids iids B1 B2 hu hi => ?_⟩
  · have hmf := mf_forward_rank0 (MatrixFactorizationModel.mk nu ni k wx wy ub ib)
      uids iids k hwx hwy hub hib hu hi hk1
    have hdt := mfDot_rank0 wx wy uids iids nu ni k hwx hwy hu hi hk1
    exact oeq_scalar_of _ _ _ _ hmf.1 hdt.1 hmf.2 hdt.2 (by rw [hz1, hz2]; ring)
  · by_cases hB : B = 1
    · subst hB
      have hmf := mf_forward_rank1_one (MatrixFactorizationModel.mk nu ni k wx wy ub ib)
        uids iids k hwx hwy hub hib hu hi hk1
      have hdt := mfDot_rank1_one wx wy uids iids nu ni k hwx hwy hu hi hk1
      exact oeq_scalar_of _ _ _ _ hmf.1 hdt.1 hmf.2 hdt.2 (by rw [hz1, hz2]; ring)
    · have hmf := mf_forward_rank1 (MatrixFactorizationModel.mk nu ni k wx wy ub ib)
        uids iids k B hwx hwy hub hib hu hi hB hk1
      have hdt := mfDot_rank1 wx wy uids iids nu ni k B hwx hwy hu hi hB hk1
      exact oeq_vec_of _ _ B _ _ hmf.1 hdt.1 hmf.2 hdt.2
        (fun b hb => by rw [hz1, hz2]; ring)
  · by_cases hB1c : B1 = 1
    · subst hB1c
      by_cases hB2c : B2 = 1
      · subst hB2c
        have hmf := mf_forward_rank2_oneone
          (MatrixFactorizationModel.mk nu ni k wx wy ub ib)
          uids iids k hwx hwy hub hib hu hi hk1
        have hdt := mfDot_rank2_oneone wx wy uids iids nu ni k hwx hwy hu hi hk1
        exact oeq_scalar_of _ _ _ _ hmf.1 hdt.1 hmf.2 hdt.2 (by rw [hz1, hz2]; ring)
      · have hmf := mf_forward_rank2_oneleft
          (MatrixFactorizationModel.mk nu ni k wx wy ub ib)
          uids iids k B2 hwx hwy hub hib hu hi hB2c hk1
        have hdt := mfDot_rank2_oneleft wx wy uids iids nu ni k B2 hwx hwy hu hi hB2c hk1
        exact oeq_vec_of _ _ B2 _ _ hmf.1 hdt.1 hmf.2 hdt.2
          (fun b hb => by rw [hz1, hz2]; ring)
    · by_cases hB2c : B2 = 1
      · subst hB2c
        have hmf := mf_forward_rank2_oneright
          (MatrixFactorizationModel.mk nu ni k wx wy ub ib)
          uids iids k B1 hwx hwy hub hib hu hi hB1c hk1
        have hdt := mfDot_rank2_oneright wx wy uids iids nu ni k B1 hwx hwy hu hi hB1c hk1
        exact oeq_vec_of _ _ B1 _ _ hmf.1 hdt.1 hmf.2 hdt.2
          (fun a ha => by rw [hz1, hz2]; ring)
      · have hmf := mf_forward_rank2 (MatrixFactorizationModel.mk nu ni k wx wy ub ib)
          uids iids k B1 B2 hwx hwy hub hib hu hi hB1c hB2c hk1
        have hdt := mfDot_rank2 wx wy uids iids nu ni k B1 B2 hwx hwy hu hi hB1c hB2c hk1
        exact oeq_mat_of _ _ B1 B2 _ _ hmf.1 hdt.1 hmf.2 hdt.2
          (fun a b ha hb => by rw [hz1, hz2]; ring)

theorem bias_zero_equivalence_witness :
    oeq ((mfB.forward ids0 ids0).2) ((smB.forward ids0 ids0).2)
      ∧ oeq ((mfB.forward ids1 ids1).2) ((smB.forward ids1 ids1).2)
      ∧ oeq ((mfB.forward ids2 ids2).2) ((smB.forward ids2 ids2).2)
      ∧ oeq ((mfB.forward ids22 ids22).2) ((smB.forward ids22 ids22).2) :=
  ⟨(bias_zero_equivalence wB wB zB zB 2 2 2 rfl rfl rfl rfl (fun _ => rfl) (fun _ => rfl)
      (by decide)).1 ids0 ids0 rfl rfl,
   (bias_zero_equivalence wB wB zB zB 2 2 2 rfl rfl rfl rfl (fun _ => rfl) (fun _ => rfl)
      (by decide)).2.1 ids1 ids1 1 rfl rfl,
   (bias_zero_equivalence wB wB zB zB 2 2 2 rfl rfl rfl rfl (fun _ => rfl) (fun _ => rfl)
      (by decide)).2.1 ids2 ids2 2 rfl rfl,
   (bias_zero_equivalence wB wB zB zB 2 2 2 rfl rfl rfl rfl (fun _ => rfl) (fun _ => rfl)
      (by decide)).2.2 ids22 ids22 2 2 rfl rfl⟩

end DivMachines
